import Mathlib

/-!
Verification development for the wogolea-backend auction/draft engine.

The definitions below are a shallow embedding of the JavaScript source:
* `src/routes/auction.js` — bid queue & pacer (`processBidQueue`), bid
  application (`executeBid`), auto-bid evaluator (`checkAutoBids`,
  `triggerInitialAutoBids`), the bid/manual-bid/sold/unsold/authority routes;
* `src/routes/draft.js` — snake-draft turn calculation and pick advancement.

SQLite tables are modelled as Lean lists of records; the in-memory module
state of `auction.js` (bid queue, auto-bid settings map, phase, timer handle,
`lastBidTime`) is gathered into an `Engine` record.  Time is an explicit
natural-number clock (milliseconds); the drain loop's `setTimeout` wait is
modelled by advancing the clock, and the unknown real durations of each loop
iteration are supplied as a list of nonnegative delays.
-/

namespace Wogolea

/-- A row of the `players` table (the columns the auction/draft engine reads). -/
structure Player where
  id : Nat
  user_id : Nat
  base_price : Int
  is_available : Bool
deriving Repr, DecidableEq

/-- A row of the `teams` table (the columns the auction/draft engine reads).
`owner_id`, `captain_id`, `bidding_authority_user_id` are nullable references. -/
structure Team where
  id : Nat
  owner_id : Option Nat
  captain_id : Option Nat
  bidding_authority_user_id : Option Nat
  budget_remaining : Int
deriving Repr, DecidableEq

/-- The singleton `auction_state` row. `draft_order` is stored in the source as
a JSON array of team ids; here it is a list of team ids directly. -/
structure AuctionStateRec where
  mode : String
  current_player_id : Option Nat
  current_bid : Int
  current_bidder_team_id : Option Nat
  timer_end : Option Nat
  season : Nat
  draft_round : Nat
  draft_pick : Nat
  draft_order : List Nat
deriving Repr, DecidableEq

/-- A row of the `auction_log` table. -/
structure LogEntry where
  player_id : Nat
  team_id : Nat
  bid_amount : Int
  bid_increment : Int
  is_auto_bid : Bool
  is_winning_bid : Bool
  season : Nat
deriving Repr, DecidableEq

/-- A row of the `team_roster` table. -/
structure RosterRow where
  team_id : Nat
  player_id : Nat
  acquisition_type : String
  price : Int
  season : Nat
deriving Repr, DecidableEq

/-- A row of the `draft_log` table. -/
structure DraftLogRow where
  round_number : Nat
  pick_number : Nat
  team_id : Nat
  player_id : Nat
  season : Nat
deriving Repr, DecidableEq

/-- The persistent store: the tables read and written by the two engines.
`users` holds just the ids (the only field the modelled routes consult). -/
structure Db where
  auction_state : AuctionStateRec
  teams : List Team
  players : List Player
  users : List Nat
  auction_log : List LogEntry
  team_roster : List RosterRow
  draft_log : List DraftLogRow
deriving Repr, DecidableEq

/-- Model of `db.prepare('SELECT * FROM teams WHERE id = ?').get(teamId)`. -/
def getTeam (db : Db) (teamId : Nat) : Option Team :=
  db.teams.find? (fun t => t.id == teamId)

/-- An entry of the in-memory `bidQueue` array. -/
structure PendingBid where
  teamId : Nat
  amount : Int
  increment : Int
  isAutoBid : Bool
deriving Repr, DecidableEq

/-- One team's entry of the in-memory `autoBidSettings` object. -/
structure AutoBidSetting where
  maxBid : Int
  increment : Int
  active : Bool
deriving Repr, DecidableEq

/-- The module-level mutable state of `src/routes/auction.js`, together with
the database handle and an explicit clock `now` (milliseconds).
`autoBidSettings` is the `{ teamId: settings }` object as an association list
in the object's enumeration order; `phaseTimer` records whether a deferred
setup→bidding timer is outstanding. -/
structure Engine where
  db : Db
  bidQueue : List PendingBid
  isProcessingBids : Bool
  lastBidTime : Nat
  autoBidSettings : List (Nat × AutoBidSetting)
  currentPhase : String
  phaseTimer : Bool
  now : Nat
deriving Repr, DecidableEq

/-- The fixed pacing interval `BID_INTERVAL_MS` (3 seconds). -/
def BID_INTERVAL_MS : Nat := 3000

/-- Model of `executeBid(bid, io)` (auction.js lines 51–104): validate a drained queue
entry against the current state and, when valid, apply it — set
`current_bid`/`current_bidder_team_id`, extend `timer_end` to now + 10 s, and
append an `auction_log` row.  All failures return the database unchanged with
a `false` flag (the caller discards the result: "fail silently"). -/
def executeBid (bid : PendingBid) (now : Nat) (db : Db) : Db × Bool :=
  let state := db.auction_state
  if state.mode ≠ "auction" then (db, false)
  else
    match state.current_player_id with
    | none => (db, false)
    | some pid =>
      if bid.amount ≤ state.current_bid then (db, false)
      else
        match getTeam db bid.teamId with
        | none => (db, false)
        | some team =>
          if team.budget_remaining < bid.amount then (db, false)
          else
            let newTimerEnd := now + 10 * 1000
            let state' := { state with
              current_bid := bid.amount,
              current_bidder_team_id := some bid.teamId,
              timer_end := some newTimerEnd }
            let entry : LogEntry := {
              player_id := pid,
              team_id := bid.teamId,
              bid_amount := bid.amount,
              bid_increment := bid.increment,
              is_auto_bid := bid.isAutoBid,
              is_winning_bid := false,
              season := state.season }
            ({ db with
                auction_state := state',
                auction_log := db.auction_log ++ [entry] }, true)

/-- Model of `checkAutoBids(excludeTeamId, io)` (auction.js lines 107–136): scan each
entry of `autoBidSettings` (skipping the team that just bid and inactive
entries) and, when `current_bid + increment` is within both the ceiling and
the team's remaining budget, push a synthetic auto-bid onto the queue.
Returns the new queue; the database is only read. -/
def checkAutoBids (excludeTeamId : Nat) (db : Db)
    (settings : List (Nat × AutoBidSetting)) (queue : List PendingBid) :
    List PendingBid :=
  let state := db.auction_state
  if state.mode ≠ "auction" ∨ state.current_player_id = none then queue
  else
    settings.foldl (fun q p =>
      if p.1 = excludeTeamId ∨ p.2.active = false then q
      else
        match getTeam db p.1 with
        | none => q
        | some team =>
          let nextBid := state.current_bid + p.2.increment
          if nextBid ≤ p.2.maxBid ∧ nextBid ≤ team.budget_remaining then
            q ++ [⟨p.1, nextBid, p.2.increment, true⟩]
          else q) queue

/-- The per-entry rule of `checkAutoBids`, as a single-entry function: the
synthetic bid (if any) that scanning one `autoBidSettings` entry produces. -/
def autoBidEntry (excludeTeamId : Nat) (db : Db) (p : Nat × AutoBidSetting) :
    Option PendingBid :=
  if p.1 = excludeTeamId ∨ p.2.active = false then none
  else
    match getTeam db p.1 with
    | none => none
    | some team =>
      let nextBid := db.auction_state.current_bid + p.2.increment
      if nextBid ≤ p.2.maxBid ∧ nextBid ≤ team.budget_remaining then
        some ⟨p.1, nextBid, p.2.increment, true⟩
      else none

/-- One iteration of the `while` loop of `processBidQueue` (auction.js lines
28–45): wait out the remainder of the pacing interval (the clock jumps to
`max now (lastBidTime + BID_INTERVAL_MS)`), shift the head entry, run
`executeBid` on it, record `lastBidTime = Date.now()` (the wait target plus
the iteration's own duration `d ≥ 0`), then run `checkAutoBids` excluding the
team that just bid.  The second component reports the applied bid and its
application time, or `none` when the entry was discarded. -/
def drainStep (d : Nat) (e : Engine) : Engine × Option (Nat × PendingBid) :=
  match e.bidQueue with
  | [] => (e, none)
  | bid :: rest =>
    let waited := max e.now (e.lastBidTime + BID_INTERVAL_MS)
    let r := executeBid bid waited e.db
    let queue' := checkAutoBids bid.teamId r.1 e.autoBidSettings rest
    let e' := { e with
      db := r.1,
      bidQueue := queue',
      lastBidTime := waited + d,
      now := waited + d }
    (e', if r.2 then some (waited, bid) else none)

/-- The `while (bidQueue.length > 0)` loop of `processBidQueue`, iterated over
a list of per-iteration durations (the loop in the source runs until the
queue empties; the duration list bounds how many iterations are unfolded).
Returns the final engine state and the trace of applied bids with their
application times. -/
def drainLoop : List Nat → Engine → Engine × List (Nat × PendingBid)
  | [], e => (e, [])
  | d :: ds, e =>
    if e.bidQueue.isEmpty then (e, [])
    else
      ((drainLoop ds (drainStep d e).1).1,
       (drainStep d e).2.toList ++ (drainLoop ds (drainStep d e).1).2)

/-- Model of `processBidQueue(io)` (auction.js lines 23–48): a re-entrant call while a
drain is in progress (or with an empty queue) is a no-op; otherwise set
`isProcessingBids`, run the drain loop, and clear the flag.  (The
`processBidQueue` re-invocation inside `checkAutoBids` is a no-op during a
drain because `isProcessingBids` is set, and the loop itself keeps consuming
the entries the evaluator appended — which is what `drainLoop` does.) -/
def processBidQueue (ds : List Nat) (e : Engine) : Engine × List (Nat × PendingBid) :=
  if e.isProcessingBids || e.bidQueue.isEmpty then (e, [])
  else
    ({ (drainLoop ds { e with isProcessingBids := true }).1 with isProcessingBids := false },
     (drainLoop ds { e with isProcessingBids := true }).2)

/-- The first element of the stable descending sort
`[...].sort((a, b) => b[1].maxBid - a[1].maxBid)[0]` used by
`triggerInitialAutoBids`: the first entry attaining the maximal `maxBid`
(a stable sort keeps the earliest entry among equal keys first). -/
def firstByMaxCeiling (l : List (Nat × AutoBidSetting)) :
    Option (Nat × AutoBidSetting) :=
  l.foldl (fun acc p =>
    match acc with
    | none => some p
    | some q => if q.2.maxBid < p.2.maxBid then some p else some q) none

/-- Model of `triggerInitialAutoBids(state, io)` (auction.js lines 252–273): among
active instructions with `maxBid >= current_bid`, take the highest-ceiling
one; if that team's budget covers the current bid (the base price), push an
opening bid at exactly `current_bid` with zero increment.  Returns the new
queue (the source then calls `processBidQueue`). -/
def triggerInitialAutoBids (db : Db) (settings : List (Nat × AutoBidSetting))
    (queue : List PendingBid) : List PendingBid :=
  let state := db.auction_state
  let eligible := settings.filter
    (fun p => p.2.active && decide (state.current_bid ≤ p.2.maxBid))
  match firstByMaxCeiling eligible with
  | none => queue
  | some (teamId, _s) =>
    match getTeam db teamId with
    | none => queue
    | some team =>
      if state.current_bid ≤ team.budget_remaining then
        queue ++ [⟨teamId, state.current_bid, 0, true⟩]
      else queue

/-- Model of `startBiddingPhase(io)` (auction.js lines 224–249): set the phase to
`bidding`, arm a fresh 30-second `timer_end`, and — when a player is on the
block — seed the queue via `triggerInitialAutoBids` and drain it. -/
def startBiddingPhase (ds : List Nat) (e : Engine) :
    Engine × List (Nat × PendingBid) :=
  let db := e.db
  let state' := { db.auction_state with timer_end := some (e.now + 30 * 1000) }
  let e1 := { e with currentPhase := "bidding", db := { db with auction_state := state' } }
  match e1.db.auction_state.current_player_id with
  | none => (e1, [])
  | some _ =>
    let q := triggerInitialAutoBids e1.db e1.autoBidSettings e1.bidQueue
    processBidQueue ds { e1 with bidQueue := q }

/-- Model of `hasBiddingAuthority(team, userId, userRole)` (auction.js lines 347–358):
admins always have authority; otherwise the delegate if one is set, else the
owner. -/
def hasBiddingAuthority (team : Team) (userId : Nat) (userRole : String) : Bool :=
  if userRole = "admin" then true
  else
    match team.bidding_authority_user_id with
    | some d => d == userId
    | none => team.owner_id == some userId

/-- The validation-and-enqueue part of `POST /auction/bid` (auction.js lines
361–424, up to the `bidQueue.push`): JS falsiness of a missing/zero
`team_id`/`amount` is modelled as equality with 0.  Returns the updated
engine and `none` on acceptance, or the route's error message.  The route
then calls `processBidQueue` (see `bidRouteHandler`). -/
def bidSubmit (team_id : Nat) (amount increment : Int) (userId : Nat)
    (userRole : String) (e : Engine) : Engine × Option String :=
  if team_id = 0 ∨ amount = 0 then (e, some "Team ID and amount are required")
  else
    let state := e.db.auction_state
    if state.mode ≠ "auction" then (e, some "Auction is not active")
    else
      match state.current_player_id with
      | none => (e, some "No player currently being auctioned")
      | some _ =>
        if e.currentPhase = "setup" then
          (e, some "Still in setup phase - set your auto-bid target instead")
        else
          match getTeam e.db team_id with
          | none => (e, some "Team not found")
          | some team =>
            if ¬ hasBiddingAuthority team userId userRole then
              (e, some "You do not have bidding authority for this team")
            else if amount ≤ state.current_bid then
              (e, some "Bid must be higher than current bid")
            else if team.budget_remaining < amount then
              (e, some "Insufficient budget")
            else
              let inc := if increment = 0 then amount - state.current_bid else increment
              ({ e with bidQueue := e.bidQueue ++ [⟨team_id, amount, inc, false⟩] },
               none)

/-- The full `POST /auction/bid` handler: validate and enqueue, then start
draining the queue. -/
def bidRouteHandler (ds : List Nat) (team_id : Nat) (amount increment : Int)
    (userId : Nat) (userRole : String) (e : Engine) : Engine × Option String :=
  match bidSubmit team_id amount increment userId userRole e with
  | (e', none) => ((processBidQueue ds e').1, none)
  | (e', some err) => (e', some err)

/-- Model of `POST /auction/manual-bid` (auction.js lines 870–943): admin bids skip the
queue and are applied synchronously.  Checks: ids present (JS-falsy 0
rejected), a player on the block, team exists, amount strictly above the
current bid, amount within budget.  On success: update state, arm a 10-second
timer, append a log row.  Note that the handler touches neither `bidQueue`
nor `autoBidSettings` and never invokes `checkAutoBids`. -/
def manualBidRoute (team_id : Nat) (amount : Int) (e : Engine) : Engine × Bool :=
  if team_id = 0 ∨ amount = 0 then (e, false)
  else
    let state := e.db.auction_state
    match state.current_player_id with
    | none => (e, false)
    | some pid =>
      match getTeam e.db team_id with
      | none => (e, false)
      | some team =>
        if amount ≤ state.current_bid then (e, false)
        else if team.budget_remaining < amount then (e, false)
        else
          let increment := amount - state.current_bid
          let newTimerEnd := e.now + 10 * 1000
          let state' := { state with
            current_bid := amount,
            current_bidder_team_id := some team_id,
            timer_end := some newTimerEnd }
          let entry : LogEntry := {
            player_id := pid,
            team_id := team_id,
            bid_amount := amount,
            bid_increment := increment,
            is_auto_bid := false,
            is_winning_bid := false,
            season := state.season }
          ({ e with db := { e.db with
              auction_state := state',
              auction_log := e.db.auction_log ++ [entry] } }, true)

/-- Model of `POST /auction/sold` (auction.js lines 532–606).  The handler FIRST clears
the bid queue, resets the phase to `idle` and cancels the phase timer, and
only THEN checks whether there is an active bid; hence those engine-local
mutations also happen on the rejection path.  On success: roster row
appended, winning team's budget debited by `current_bid`, player marked
unavailable, every `auction_log` row matching (player, team, amount, season)
flagged as the winning bid, auction state cleared, auto-bid settings reset. -/
def soldRoute (e : Engine) : Engine × Bool :=
  let e1 := { e with bidQueue := [], currentPhase := "idle", phaseTimer := false }
  let state := e1.db.auction_state
  match state.current_player_id, state.current_bidder_team_id with
  | some pid, some tid =>
    let db := e1.db
    let rosterRow : RosterRow := {
      team_id := tid, player_id := pid, acquisition_type := "auction",
      price := state.current_bid, season := state.season }
    let teams' := db.teams.map (fun t =>
      if t.id == tid then { t with budget_remaining := t.budget_remaining - state.current_bid }
      else t)
    let players' := db.players.map (fun p =>
      if p.id == pid then { p with is_available := false } else p)
    let log' := db.auction_log.map (fun l =>
      if l.player_id == pid && l.team_id == tid &&
         l.bid_amount == state.current_bid && l.season == state.season then
        { l with is_winning_bid := true }
      else l)
    let state' := { state with
      current_player_id := none, current_bid := 0,
      current_bidder_team_id := none, timer_end := none }
    ({ e1 with
        db := { db with
          team_roster := db.team_roster ++ [rosterRow],
          teams := teams',
          players := players',
          auction_log := log',
          auction_state := state' },
        autoBidSettings := [] }, true)
  | _, _ => (e1, false)

/-- Model of `POST /auction/unsold` (auction.js lines 609–653).  Like `soldRoute`, the
queue/phase/timer resets happen before the "no player" check; on success the
auction state is cleared and auto-bid settings reset, with no roster, budget,
player or log mutation. -/
def unsoldRoute (e : Engine) : Engine × Bool :=
  let e1 := { e with bidQueue := [], currentPhase := "idle", phaseTimer := false }
  let state := e1.db.auction_state
  match state.current_player_id with
  | none => (e1, false)
  | some _ =>
    let state' := { state with
      current_player_id := none, current_bid := 0,
      current_bidder_team_id := none, timer_end := none }
    ({ e1 with
        db := { e1.db with auction_state := state' },
        autoBidSettings := [] }, true)

/-- Model of `POST /auction/authority` (auction.js lines 754–830): only the owner or an
admin may delegate; a delegate must exist and be the team's captain or a
roster member of the team with acquisition type `core` (roster joined with
players on `player_id`, matching the delegate's `user_id`); a JS-falsy
`delegate_to_user_id` (here `none`) revokes, returning authority to the
owner. -/
def delegateAuthorityRoute (team_id : Nat) (delegate_to_user_id : Option Nat)
    (userId : Nat) (userRole : String) (db : Db) : Db × Option String :=
  if team_id = 0 then (db, some "Team ID is required")
  else
    match getTeam db team_id with
    | none => (db, some "Team not found")
    | some team =>
      let isAdmin := userRole = "admin"
      let isOwner := team.owner_id = some userId
      if ¬ (isAdmin ∨ isOwner) then
        (db, some "Only the team owner can delegate bidding authority")
      else
        match delegate_to_user_id with
        | some d =>
          if ¬ db.users.contains d then (db, some "User not found")
          else
            let isCaptain := team.captain_id = some d
            let isCorePlayer := db.team_roster.any (fun r =>
              r.team_id == team_id && r.acquisition_type == "core" &&
              db.players.any (fun p => p.id == r.player_id && p.user_id == d))
            if ¬ (isCaptain ∨ isCorePlayer) then
              (db, some "Can only delegate to team captain or core players")
            else
              ({ db with teams := db.teams.map (fun t =>
                  if t.id == team_id then { t with bidding_authority_user_id := some d }
                  else t) }, none)
        | none =>
          ({ db with teams := db.teams.map (fun t =>
              if t.id == team_id then { t with bidding_authority_user_id := none }
              else t) }, none)

/-- The snake-draft index computation shared by `GET /draft/status` (draft.js
lines 65–74) and `POST /draft/pick`: `pickIndex = (draft_pick - 1) %
totalTeams`, reversed on even rounds. -/
def draftTeamIndex (totalTeams draft_pick draft_round : Nat) : Nat :=
  let pickIndex := (draft_pick - 1) % totalTeams
  if draft_round % 2 = 0 then totalTeams - 1 - pickIndex else pickIndex

/-- The team currently on the clock, as computed by `GET /draft/status`:
`draftOrder[teamIndex]` (out-of-range JS indexing yields `undefined`,
modelled as `none`). -/
def onTheClock (state : AuctionStateRec) : Option Nat :=
  state.draft_order.get?
    (draftTeamIndex state.draft_order.length state.draft_pick state.draft_round)

/-- The pick/round advancement of `POST /draft/pick` (draft.js lines 195–201):
`nextPick = draft_pick + 1`; the round increments when
`(nextPick - 1) % totalTeams === 0 && nextPick > draft_pick`.  Returns
`(nextRound, nextPick)`. -/
def advanceDraftCounters (totalTeams draft_round draft_pick : Nat) : Nat × Nat :=
  let nextPick := draft_pick + 1
  let nextRound :=
    if (nextPick - 1) % totalTeams = 0 ∧ draft_pick < nextPick then draft_round + 1
    else draft_round
  (nextRound, nextPick)

/-- Model of `POST /draft/pick` (draft.js lines 128–249).  Failures (missing id, wrong
mode, unknown on-the-clock team — a thrown lookup in the source, answered
with a 500 and no mutation — permission denied, player unavailable or already
drafted this season) leave the database unchanged.  On success: roster row
and draft-log row appended, player marked unavailable, counters advanced via
`advanceDraftCounters`, `timer_end` cleared. -/
def draftPickRoute (player_id : Nat) (userId : Nat) (userRole : String)
    (db : Db) : Db × Bool :=
  if player_id = 0 then (db, false)
  else
    let state := db.auction_state
    if state.mode ≠ "draft" then (db, false)
    else
      let draftOrder := state.draft_order
      let totalTeams := draftOrder.length
      match draftOrder.get? (draftTeamIndex totalTeams state.draft_pick state.draft_round) with
      | none => (db, false)
      | some currentTeamId =>
        match getTeam db currentTeamId with
        | none => (db, false)
        | some team =>
          let isAdmin := userRole = "admin"
          let isTeamOwnerOrCaptain :=
            team.owner_id = some userId ∨ team.captain_id = some userId
          if ¬ (isAdmin ∨ isTeamOwnerOrCaptain) then (db, false)
          else
            match db.players.find? (fun p => p.id == player_id && p.is_available) with
            | none => (db, false)
            | some _ =>
              if db.team_roster.any (fun r =>
                  r.player_id == player_id && r.season == state.season) then
                (db, false)
              else
                let roster' := db.team_roster ++
                  [⟨currentTeamId, player_id, "draft", 0, state.season⟩]
                let players' := db.players.map (fun p =>
                  if p.id == player_id then { p with is_available := false } else p)
                let draftLog' := db.draft_log ++
                  [⟨state.draft_round, state.draft_pick, currentTeamId, player_id, state.season⟩]
                let next := advanceDraftCounters totalTeams state.draft_round state.draft_pick
                let state' := { state with
                  draft_round := next.1, draft_pick := next.2, timer_end := none }
                ({ db with
                    team_roster := roster',
                    players := players',
                    draft_log := draftLog',
                    auction_state := state' }, true)



/-! ### Spec-side predicates and concrete data -/

/-- The applied-bid trace is paced starting from a base time: each recorded
application time is at least `BID_INTERVAL_MS` after the previous one (and
the first at least that long after the base). -/
def Paced : Nat → List (Nat × PendingBid) → Prop
  | _, [] => True
  | base, (t, _) :: rest => base + BID_INTERVAL_MS ≤ t ∧ Paced t rest

/-- Adjacent applied bids in a trace are at least `BID_INTERVAL_MS` apart. -/
def ConsecutivelyPaced : List (Nat × PendingBid) → Prop
  | (t1, _) :: (t2, b2) :: rest =>
    t1 + BID_INTERVAL_MS ≤ t2 ∧ ConsecutivelyPaced ((t2, b2) :: rest)
  | _ => True

/-- The amounts of a trace of applied bids strictly increase, starting
strictly above a base amount. -/
def AmountsIncreaseFrom : Int → List (Nat × PendingBid) → Prop
  | _, [] => True
  | b, (_, bid) :: rest => b < bid.amount ∧ AmountsIncreaseFrom bid.amount rest

/-- Concrete data used by witnesses and counterexamples. -/
def wTeam1 : Team :=
  { id := 1, owner_id := some 7, captain_id := some 8,
    bidding_authority_user_id := none, budget_remaining := 1000000 }

def wTeam2 : Team :=
  { id := 2, owner_id := some 17, captain_id := none,
    bidding_authority_user_id := none, budget_remaining := 500000 }

def wPlayer5 : Player :=
  { id := 5, user_id := 9, base_price := 100, is_available := true }

def wPlayer6 : Player :=
  { id := 6, user_id := 10, base_price := 100, is_available := true }

def wState : AuctionStateRec :=
  { mode := "auction", current_player_id := some 5, current_bid := 100,
    current_bidder_team_id := none, timer_end := none, season := 1,
    draft_round := 1, draft_pick := 1, draft_order := [] }

def wDb : Db :=
  { auction_state := wState, teams := [wTeam1, wTeam2],
    players := [wPlayer5, wPlayer6], users := [7, 8, 9, 10, 17],
    auction_log := [],
    team_roster := [{ team_id := 1, player_id := 6, acquisition_type := "core",
                      price := 0, season := 1 }],
    draft_log := [] }

def wEngine : Engine :=
  { db := wDb, bidQueue := [], isProcessingBids := false, lastBidTime := 0,
    autoBidSettings := [(1, { maxBid := 500, increment := 50, active := true })],
    currentPhase := "setup", phaseTimer := true, now := 100000 }


/-- Concrete draft data: a six-team snake order. -/
def wDraftOrder : List Nat := [11, 22, 33, 44, 55, 66]

def wDraftState : AuctionStateRec :=
  { mode := "draft", current_player_id := none, current_bid := 0,
    current_bidder_team_id := none, timer_end := none, season := 1,
    draft_round := 1, draft_pick := 1, draft_order := wDraftOrder }

def wTeam11 : Team :=
  { id := 11, owner_id := some 30, captain_id := none,
    bidding_authority_user_id := none, budget_remaining := 0 }

def wDraftDb : Db :=
  { auction_state := wDraftState, teams := [wTeam11],
    players := [wPlayer5], users := [30],
    auction_log := [], team_roster := [], draft_log := [] }


/-- Concrete sold-path data: player 5 on the block at a winning bid of
500000 by team 1, with the matching log entry present. -/
def wSoldState : AuctionStateRec :=
  { wState with current_bid := 500000, current_bidder_team_id := some 1 }

def wSoldDb : Db :=
  { wDb with
      auction_state := wSoldState,
      auction_log := [{ player_id := 5, team_id := 1, bid_amount := 500000,
                        bid_increment := 100, is_auto_bid := false,
                        is_winning_bid := false, season := 1 }] }

def wSoldEngine : Engine := { wEngine with db := wSoldDb }


/-- The witness engine in the bidding phase. -/
def wBidEngine : Engine := { wEngine with currentPhase := "bidding" }

/-- The witness engine with no player on the block. -/
def wIdleEngine : Engine :=
  { wEngine with
      db := { wDb with auction_state := { wState with current_player_id := none } },
      bidQueue := [⟨2, 300, 0, false⟩], currentPhase := "bidding" }

/-! ### Helper lemmas -/

theorem executeBid_spec (bid : PendingBid) (now : Nat) (db : Db) :
    executeBid bid now db = (db, false) ∨
    (db.auction_state.current_bid < bid.amount ∧
     (executeBid bid now db).2 = true ∧
     (executeBid bid now db).1.auction_state.current_bid = bid.amount ∧
     (executeBid bid now db).1.auction_state.current_player_id =
       db.auction_state.current_player_id ∧
     (executeBid bid now db).1.auction_state.current_bidder_team_id = some bid.teamId) := by
  simp only [executeBid]
  repeat' split
  all_goals first
    | (left; rfl)
    | (right; refine ⟨by omega, by simp, by simp, by simp, by simp⟩)

theorem executeBid_not_applied {bid : PendingBid} {now : Nat} {db : Db}
    (h : (executeBid bid now db).2 = false) : (executeBid bid now db).1 = db := by
  rcases executeBid_spec bid now db with heq | ⟨_, h2, _⟩
  · rw [heq]
  · rw [h2] at h; cases h

theorem executeBid_applied {bid : PendingBid} {now : Nat} {db : Db}
    (h : (executeBid bid now db).2 = true) :
    db.auction_state.current_bid < bid.amount ∧
    (executeBid bid now db).1.auction_state.current_bid = bid.amount := by
  rcases executeBid_spec bid now db with heq | ⟨h1, _, h3, _⟩
  · rw [heq] at h; cases h
  · exact ⟨h1, h3⟩

theorem paced_mono : ∀ {l : List (Nat × PendingBid)} {a b : Nat},
    a ≤ b → Paced b l → Paced a l
  | [], _, _, _, _ => trivial
  | (_, _) :: _, _, _, hab, h => ⟨le_trans (Nat.add_le_add_right hab _) h.1, h.2⟩

theorem queue_shape {e : Engine} (hq : ¬ e.bidQueue.isEmpty) :
    ∃ bid rest, e.bidQueue = bid :: rest := by
  cases h : e.bidQueue with
  | nil => rw [h] at hq; simp at hq
  | cons a l => exact ⟨a, l, rfl⟩

theorem drainStep_fields {e : Engine} {bid : PendingBid} {rest : List PendingBid}
    (hbr : e.bidQueue = bid :: rest) (d : Nat) :
    (drainStep d e).1.lastBidTime = max e.now (e.lastBidTime + BID_INTERVAL_MS) + d ∧
    (drainStep d e).1.db =
      (executeBid bid (max e.now (e.lastBidTime + BID_INTERVAL_MS)) e.db).1 ∧
    (drainStep d e).2 =
      (if (executeBid bid (max e.now (e.lastBidTime + BID_INTERVAL_MS)) e.db).2
       then some (max e.now (e.lastBidTime + BID_INTERVAL_MS), bid) else none) ∧
    (drainStep d e).1.bidQueue =
      checkAutoBids bid.teamId
        (executeBid bid (max e.now (e.lastBidTime + BID_INTERVAL_MS)) e.db).1
        e.autoBidSettings rest := by
  refine ⟨?_, ?_, ?_, ?_⟩ <;> simp [drainStep, hbr]

theorem drainLoop_paced : ∀ (ds : List Nat) (e : Engine),
    Paced e.lastBidTime (drainLoop ds e).2 := by
  intro ds
  induction ds with
  | nil => intro e; exact trivial
  | cons d ds ih =>
    intro e
    by_cases hq : e.bidQueue.isEmpty
    · simp only [drainLoop, hq, if_true]; exact trivial
    · obtain ⟨bid, rest, hbr⟩ := queue_shape hq
      obtain ⟨hlast, _hdb, hres, _hqueue⟩ := drainStep_fields hbr d
      have hrec := ih (drainStep d e).1
      rw [hlast] at hrec
      simp only [drainLoop, hq, if_false]
      rw [hres]
      by_cases happ : (executeBid bid (max e.now (e.lastBidTime + BID_INTERVAL_MS)) e.db).2
      · rw [if_pos happ]
        exact ⟨Nat.le_max_right _ _,
               paced_mono (Nat.le_add_right _ _) hrec⟩
      · rw [if_neg happ]
        simp only [Option.toList_none, List.nil_append]
        exact paced_mono
          (le_trans (le_trans (Nat.le_add_right _ _) (Nat.le_max_right _ _))
             (Nat.le_add_right _ _)) hrec

theorem paced_consecutive : ∀ {l : List (Nat × PendingBid)} {base : Nat},
    Paced base l → ConsecutivelyPaced l
  | [], _, _ => trivial
  | [(_, _)], _, _ => trivial
  | (_t1, _b1) :: (t2, b2) :: rest, _, h =>
    ⟨h.2.1, paced_consecutive (l := (t2, b2) :: rest) h.2⟩

theorem drainLoop_amounts : ∀ (ds : List Nat) (e : Engine),
    AmountsIncreaseFrom e.db.auction_state.current_bid (drainLoop ds e).2 := by
  intro ds
  induction ds with
  | nil => intro e; exact trivial
  | cons d ds ih =>
    intro e
    by_cases hq : e.bidQueue.isEmpty
    · simp only [drainLoop, hq, if_true]; exact trivial
    · obtain ⟨bid, rest, hbr⟩ := queue_shape hq
      obtain ⟨_hlast, hdb, hres, _hqueue⟩ := drainStep_fields hbr d
      have hrec := ih (drainStep d e).1
      rw [hdb] at hrec
      simp only [drainLoop, hq, if_false]
      rw [hres]
      by_cases happ : (executeBid bid (max e.now (e.lastBidTime + BID_INTERVAL_MS)) e.db).2
      · rw [if_pos happ]
        obtain ⟨hlt, hset⟩ := executeBid_applied happ
        rw [hset] at hrec
        exact ⟨hlt, hrec⟩
      · rw [if_neg happ]
        simp only [Option.toList_none, List.nil_append]
        rw [executeBid_not_applied (Bool.of_not_eq_true happ)] at hrec
        exact hrec



theorem manualBid_spec (tid : Nat) (amt : Int) (e : Engine) :
    manualBidRoute tid amt e = (e, false) ∨
    (e.db.auction_state.current_bid < amt ∧
     (manualBidRoute tid amt e).2 = true ∧
     (manualBidRoute tid amt e).1.db.auction_state.current_bid = amt ∧
     (manualBidRoute tid amt e).1.db.auction_state.current_player_id =
       e.db.auction_state.current_player_id ∧
     (manualBidRoute tid amt e).1.db.auction_state.current_bidder_team_id = some tid ∧
     (manualBidRoute tid amt e).1.bidQueue = e.bidQueue ∧
     (manualBidRoute tid amt e).1.autoBidSettings = e.autoBidSettings) := by
  simp only [manualBidRoute]
  repeat' split
  all_goals first
    | (left; rfl)
    | (right; refine ⟨by omega, by simp, by simp, by simp, by simp, by simp, by simp⟩)

/-- C1: while a player is on the block every applied bid — queue-drained or
admin manual — has an amount strictly greater than the current bid at
application time: the applied amounts of a drain form a strictly increasing
sequence above the starting bid, an applied manual bid strictly raises
`current_bid`, and any rejected application leaves the state unchanged, so
`current_bid` never decreases between player changes. -/
theorem auction_applied_bids_strictly_increase :
    (∀ (ds : List Nat) (e : Engine),
      AmountsIncreaseFrom e.db.auction_state.current_bid (processBidQueue ds e).2) ∧
    (∀ (tid : Nat) (amt : Int) (e : Engine),
      ((manualBidRoute tid amt e).2 = true →
        e.db.auction_state.current_bid < amt ∧
        (manualBidRoute tid amt e).1.db.auction_state.current_bid = amt ∧
        (manualBidRoute tid amt e).1.db.auction_state.current_player_id =
          e.db.auction_state.current_player_id) ∧
      ((manualBidRoute tid amt e).2 = false → (manualBidRoute tid amt e).1 = e)) ∧
    (∀ (bid : PendingBid) (now : Nat) (db : Db),
      ((executeBid bid now db).2 = true →
        db.auction_state.current_bid < bid.amount ∧
        (executeBid bid now db).1.auction_state.current_bid = bid.amount) ∧
      ((executeBid bid now db).2 = false → (executeBid bid now db).1 = db)) := by
  refine ⟨?_, ?_, ?_⟩
  · intro ds e
    unfold processBidQueue
    split
    · exact trivial
    · exact drainLoop_amounts ds { e with isProcessingBids := true }
  · intro tid amt e
    constructor
    · intro h
      rcases manualBid_spec tid amt e with heq | ⟨h1, _, h3, h4, _⟩
      · rw [heq] at h; cases h
      · exact ⟨h1, h3, h4⟩
    · intro h
      rcases manualBid_spec tid amt e with heq | ⟨_, h2, _⟩
      · rw [heq]
      · rw [h2] at h; cases h
  · intro bid now db
    exact ⟨fun h => executeBid_applied h, fun h => executeBid_not_applied h⟩

/-- Witness for `auction_applied_bids_strictly_increase` at concrete inputs:
an empty drain, an applied manual bid of 200 over a current bid of 100, and a
rejected low queue bid. -/
theorem auction_applied_bids_strictly_increase_witness :
    AmountsIncreaseFrom wEngine.db.auction_state.current_bid
      (processBidQueue [0] wEngine).2 ∧
    (wEngine.db.auction_state.current_bid < 200 ∧
     (manualBidRoute 1 200 wEngine).1.db.auction_state.current_bid = 200 ∧
     (manualBidRoute 1 200 wEngine).1.db.auction_state.current_player_id =
       wEngine.db.auction_state.current_player_id) ∧
    (executeBid ⟨1, 50, 0, false⟩ 0 wDb).1 = wDb :=
  ⟨auction_applied_bids_strictly_increase.1 [0] wEngine,
   (auction_applied_bids_strictly_increase.2.1 1 200 wEngine).1 (by decide),
   (auction_applied_bids_strictly_increase.2.2 ⟨1, 50, 0, false⟩ 0 wDb).2 (by decide)⟩

/-- C9: consecutive applied queue-drained bids are separated by at least the
pacing interval `BID_INTERVAL_MS` (3 seconds), and a re-entrant call to the
drainer while a drain is in progress is a no-op. -/
theorem bid_pacing_interval (ds : List Nat) (e : Engine) :
    ConsecutivelyPaced (processBidQueue ds e).2 ∧
    (e.isProcessingBids = true → processBidQueue ds e = (e, [])) := by
  constructor
  · unfold processBidQueue
    split
    · exact trivial
    · exact paced_consecutive (drainLoop_paced ds { e with isProcessingBids := true })
  · intro h
    simp [processBidQueue, h]

/-- Witness for `bid_pacing_interval`: a concrete engine already draining. -/
theorem bid_pacing_interval_witness :
    ConsecutivelyPaced (processBidQueue [0] { wEngine with isProcessingBids := true }).2 ∧
    processBidQueue [0] { wEngine with isProcessingBids := true } =
      ({ wEngine with isProcessingBids := true }, []) :=
  ⟨(bid_pacing_interval [0] { wEngine with isProcessingBids := true }).1,
   (bid_pacing_interval [0] { wEngine with isProcessingBids := true }).2 rfl⟩

/-- C2 (code bug): when the bidding phase begins, the evaluator does enqueue
an opening bid for the highest-ceiling eligible team at exactly the current
bid (the base price, here 100) with zero increment — but draining that entry
discards it, because `executeBid` requires a strictly greater amount.  The
team never becomes the current bidder and the floor is never claimed: with a
single auto-bid instruction registered the auction stalls with no bidder. -/
theorem initial_auto_bid_floor_discarded :
    triggerInitialAutoBids wDb wEngine.autoBidSettings [] =
      [{ teamId := 1, amount := 100, increment := 0, isAutoBid := true }] ∧
    (startBiddingPhase [0, 0, 0, 0] wEngine).2 = [] ∧
    (startBiddingPhase [0, 0, 0, 0] wEngine).1.db.auction_state.current_bidder_team_id
      = none ∧
    (startBiddingPhase [0, 0, 0, 0] wEngine).1.db.auction_state.current_bid = 100 ∧
    (startBiddingPhase [0, 0, 0, 0] wEngine).1.bidQueue = [] := by
  refine ⟨by decide, by decide, by decide, by decide, by decide⟩



/-- C3: a drained queue entry whose team exists is discarded — with the
database (state, log) untouched — precisely when the mode is not `auction`,
or no player is on the block, or the amount is not strictly above the current
bid, or the team's remaining budget is below the amount; otherwise it is
applied.  A discarded entry surfaces no error to the submitter: the drain
step records nothing in the applied trace and leaves the database unchanged. -/
theorem drained_bid_discard_iff :
    (∀ (bid : PendingBid) (now : Nat) (db : Db) (team : Team),
      getTeam db bid.teamId = some team →
      ((db.auction_state.mode ≠ "auction" ∨ db.auction_state.current_player_id = none ∨
        bid.amount ≤ db.auction_state.current_bid ∨ team.budget_remaining < bid.amount) →
        executeBid bid now db = (db, false)) ∧
      (¬(db.auction_state.mode ≠ "auction" ∨ db.auction_state.current_player_id = none ∨
         bid.amount ≤ db.auction_state.current_bid ∨ team.budget_remaining < bid.amount) →
        (executeBid bid now db).2 = true)) ∧
    (∀ (d : Nat) (e : Engine) (bid : PendingBid) (rest : List PendingBid),
      e.bidQueue = bid :: rest →
      (executeBid bid (max e.now (e.lastBidTime + BID_INTERVAL_MS)) e.db).2 = false →
      (drainStep d e).2 = none ∧ (drainStep d e).1.db = e.db) := by
  constructor
  · intro bid now db team hteam
    constructor
    · intro hcond
      simp only [executeBid]
      repeat' split
      all_goals try rfl
      all_goals
        exfalso
        rcases hcond with h | h | h | h <;> simp_all
    · intro hcond
      push_neg at hcond
      obtain ⟨h1, h2, h3, h4⟩ := hcond
      simp only [executeBid]
      repeat' split
      all_goals simp_all
      all_goals omega
  · intro d e bid rest hbr hfail
    obtain ⟨_, hdb, hres, _⟩ := drainStep_fields hbr d
    rw [hres, hdb, if_neg (by simp [hfail]), executeBid_not_applied hfail]
    exact ⟨rfl, rfl⟩

/-- Witness for `drained_bid_discard_iff`: a low bid of 50 against a current
bid of 100 is discarded by `executeBid` and dropped by the drain step with
the database unchanged, while a bid of 300 is applied. -/
theorem drained_bid_discard_iff_witness :
    executeBid ⟨1, 50, 0, false⟩ 0 wDb = (wDb, false) ∧
    (executeBid ⟨1, 300, 0, false⟩ 0 wDb).2 = true ∧
    (drainStep 0 { wEngine with bidQueue := [⟨1, 50, 0, false⟩] }).2 = none ∧
    (drainStep 0 { wEngine with bidQueue := [⟨1, 50, 0, false⟩] }).1.db = wEngine.db :=
  ⟨(drained_bid_discard_iff.1 ⟨1, 50, 0, false⟩ 0 wDb wTeam1 (by decide)).1
     (Or.inr (Or.inr (Or.inl (by decide)))),
   (drained_bid_discard_iff.1 ⟨1, 300, 0, false⟩ 0 wDb wTeam1 (by decide)).2
     (by decide),
   (drained_bid_discard_iff.2 0 { wEngine with bidQueue := [⟨1, 50, 0, false⟩] }
     ⟨1, 50, 0, false⟩ [] rfl (by decide)).1,
   (drained_bid_discard_iff.2 0 { wEngine with bidQueue := [⟨1, 50, 0, false⟩] }
     ⟨1, 50, 0, false⟩ [] rfl (by decide)).2⟩



theorem checkAutoBids_eq (exclude : Nat) (db : Db)
    (hmode : db.auction_state.mode = "auction")
    (hp : db.auction_state.current_player_id ≠ none) :
    ∀ (settings : List (Nat × AutoBidSetting)) (queue : List PendingBid),
      checkAutoBids exclude db settings queue =
        queue ++ settings.filterMap (autoBidEntry exclude db) := by
  have hcond : ¬(db.auction_state.mode ≠ "auction" ∨
      db.auction_state.current_player_id = none) := by
    simp [hmode, hp]
  intro settings
  induction settings with
  | nil => intro queue; simp [checkAutoBids, hcond]
  | cons p l ih =>
    intro queue
    have h1 : checkAutoBids exclude db (p :: l) queue =
        checkAutoBids exclude db l (queue ++ (autoBidEntry exclude db p).toList) := by
      simp only [checkAutoBids, if_neg hcond, List.foldl_cons]
      congr 1
      simp only [autoBidEntry]
      repeat' split
      all_goals simp_all
    rw [h1, ih, List.filterMap_cons]
    cases h : autoBidEntry exclude db p <;> simp [h]



/-- C5: the team on the clock is `draftOrder[(draftPick − 1) mod N]` in odd
rounds and `draftOrder[N − 1 − ((draftPick − 1) mod N)]` in even rounds; a
successful pick increments `draftPick` by exactly 1 and increments
`draftRound` exactly when the incremented pick's index wraps to 0; for N = 6:
pick 1 → index 0, pick 6 → index 5, pick 7 (round 2) → index 5, pick 12
(round 2) → index 0, and advancing from (round 1, pick 6) yields (2, 7). -/
theorem snake_draft_turns :
    (∀ (p u : Nat) (r : String) (db db' : Db),
      draftPickRoute p u r db = (db', true) →
      db'.auction_state.draft_pick = db.auction_state.draft_pick + 1 ∧
      (db'.auction_state.draft_round = db.auction_state.draft_round + 1 ↔
        db.auction_state.draft_pick % db.auction_state.draft_order.length = 0)) ∧
    (∀ (st : AuctionStateRec), st.draft_round % 2 = 1 →
      onTheClock st =
        st.draft_order.get? ((st.draft_pick - 1) % st.draft_order.length)) ∧
    (∀ (st : AuctionStateRec), st.draft_round % 2 = 0 →
      onTheClock st = st.draft_order.get?
        (st.draft_order.length - 1 - (st.draft_pick - 1) % st.draft_order.length)) ∧
    onTheClock { wDraftState with draft_round := 1, draft_pick := 1 } = some 11 ∧
    onTheClock { wDraftState with draft_round := 1, draft_pick := 6 } = some 66 ∧
    onTheClock { wDraftState with draft_round := 2, draft_pick := 7 } = some 66 ∧
    onTheClock { wDraftState with draft_round := 2, draft_pick := 12 } = some 11 ∧
    advanceDraftCounters 6 1 1 = (1, 2) ∧
    advanceDraftCounters 6 1 6 = (2, 7) ∧
    advanceDraftCounters 6 2 12 = (3, 13) := by
  refine ⟨?_, ?_, ?_, by decide, by decide, by decide, by decide,
          by decide, by decide, by decide⟩
  · intro p u r db db' h
    revert h
    simp only [draftPickRoute]
    repeat' split
    all_goals intro h
    all_goals simp only [Prod.mk.injEq] at h
    all_goals try exact absurd h.2 Bool.false_ne_true
    obtain ⟨h1, -⟩ := h
    subst h1
    constructor
    · simp [advanceDraftCounters]
    · by_cases hc :
        db.auction_state.draft_pick % db.auction_state.draft_order.length = 0
      · simp [advanceDraftCounters, hc]
      · simp [advanceDraftCounters, hc]
  · intro st hodd
    unfold onTheClock draftTeamIndex
    rw [if_neg (by omega)]
  · intro st heven
    unfold onTheClock draftTeamIndex
    rw [if_pos heven]

/-- Witness for `snake_draft_turns`: an admin pick of player 5 at (round 1,
pick 1) of a six-team draft advances the pick to 2 without advancing the
round, and the on-the-clock computation at that state reads index 0. -/
theorem snake_draft_turns_witness :
    (draftPickRoute 5 99 "admin" wDraftDb).1.auction_state.draft_pick =
      wDraftDb.auction_state.draft_pick + 1 ∧
    ((draftPickRoute 5 99 "admin" wDraftDb).1.auction_state.draft_round =
      wDraftDb.auction_state.draft_round + 1 ↔
      wDraftDb.auction_state.draft_pick % wDraftDb.auction_state.draft_order.length = 0) ∧
    onTheClock wDraftState =
      wDraftState.draft_order.get?
        ((wDraftState.draft_pick - 1) % wDraftState.draft_order.length) :=
  ⟨(snake_draft_turns.1 5 99 "admin" wDraftDb
      (draftPickRoute 5 99 "admin" wDraftDb).1 (by decide)).1,
   (snake_draft_turns.1 5 99 "admin" wDraftDb
      (draftPickRoute 5 99 "admin" wDraftDb).1 (by decide)).2,
   snake_draft_turns.2.1 wDraftState rfl⟩



theorem find?_map_comm {α : Type} (f : α → α) (p : α → Bool)
    (hp : ∀ a, p (f a) = p a) :
    ∀ l : List α, (l.map f).find? p = (l.find? p).map f := by
  intro l
  induction l with
  | nil => rfl
  | cons a l ih =>
    by_cases h : p a
    · simp [List.find?_cons, hp, h]
    · simp [List.find?_cons, hp, h, ih]

theorem find?_update_list (l : List Team) (tid : Nat) (g : Team → Team)
    (hg : ∀ t, (g t).id = t.id) (team : Team)
    (h : l.find? (fun t => t.id == tid) = some team) :
    (l.map (fun t => if t.id == tid then g t else t)).find? (fun t => t.id == tid)
      = some (g team) := by
  have hp : ∀ t : Team,
      (((if t.id == tid then g t else t)).id == tid) = (t.id == tid) := by
    intro t; by_cases ht : t.id == tid <;> simp [ht, hg]
  rw [find?_map_comm _ _ hp, h]
  have hpt := List.find?_some h
  show some (if team.id == tid then g team else team) = some (g team)
  rw [if_pos hpt]

/-- C6: if sold() is called while a player is on the block with a current
bidder, the bidder team's budget decreases by exactly the current bid, the
player is marked unavailable, a roster row for (team, player, season) at the
winning price exists, every matching auction-log entry is flagged as the
winning bid, the auction state's player/bid/bidder/timer are cleared — and a
second sold() call with no new player on the block is rejected. -/
theorem sold_commits_acquisition (e : Engine) (pid tid : Nat) (team : Team)
    (hpid : e.db.auction_state.current_player_id = some pid)
    (htid : e.db.auction_state.current_bidder_team_id = some tid)
    (hteam : getTeam e.db tid = some team) :
    (soldRoute e).2 = true ∧
    getTeam (soldRoute e).1.db tid =
      some { team with budget_remaining :=
               team.budget_remaining - e.db.auction_state.current_bid } ∧
    (∀ p ∈ (soldRoute e).1.db.players, p.id = pid → p.is_available = false) ∧
    (∃ r ∈ (soldRoute e).1.db.team_roster,
       r.team_id = tid ∧ r.player_id = pid ∧
       r.season = e.db.auction_state.season ∧
       r.price = e.db.auction_state.current_bid ∧
       r.acquisition_type = "auction") ∧
    ((∃ l ∈ e.db.auction_log,
        l.player_id = pid ∧ l.team_id = tid ∧
        l.bid_amount = e.db.auction_state.current_bid ∧
        l.season = e.db.auction_state.season) →
      ∃ l ∈ (soldRoute e).1.db.auction_log,
        l.player_id = pid ∧ l.team_id = tid ∧
        l.bid_amount = e.db.auction_state.current_bid ∧
        l.season = e.db.auction_state.season ∧ l.is_winning_bid = true) ∧
    (soldRoute e).1.db.auction_state.current_player_id = none ∧
    (soldRoute e).1.db.auction_state.current_bid = 0 ∧
    (soldRoute e).1.db.auction_state.current_bidder_team_id = none ∧
    (soldRoute e).1.db.auction_state.timer_end = none ∧
    (soldRoute e).1.autoBidSettings = [] ∧
    (soldRoute (soldRoute e).1).2 = false := by
  refine ⟨?_, ?_, ?_, ?_, ?_, ?_, ?_, ?_, ?_, ?_, ?_⟩
  all_goals simp only [soldRoute, getTeam, hpid, htid]
  · exact find?_update_list e.db.teams tid
      (fun t =>
        { t with budget_remaining :=
            t.budget_remaining - e.db.auction_state.current_bid })
      (fun t => rfl) team hteam
  · intro p hp hpidp
    rcases List.mem_map.1 hp with ⟨q, hq, rfl⟩
    by_cases hqid : q.id == pid
    · simp [hqid]
    · rw [if_neg hqid] at hpidp ⊢
      exact absurd (by simp [hpidp]) hqid
  · exact ⟨{ team_id := tid, player_id := pid, acquisition_type := "auction",
             price := e.db.auction_state.current_bid,
             season := e.db.auction_state.season },
           List.mem_append_right _ (List.mem_singleton.2 rfl),
           rfl, rfl, rfl, rfl, rfl⟩
  · rintro ⟨l, hl, h1, h2, h3, h4⟩
    have hcond : (l.player_id == pid && l.team_id == tid &&
        l.bid_amount == e.db.auction_state.current_bid &&
        l.season == e.db.auction_state.season) = true := by
      simp [h1, h2, h3, h4]
    refine ⟨{ l with is_winning_bid := true }, ?_, h1, h2, h3, h4, rfl⟩
    exact List.mem_map.2 ⟨l, hl, by rw [if_pos hcond]⟩



/-- C7: while the phase is `setup`, every bid submitted through the queued
bid endpoint is rejected with an explicit error, with no queue entry appended
and the engine unchanged; once the phase is `bidding`, the same bid is
accepted into the queue provided the mode is `auction`, a player is on the
block, the amount still exceeds the current bid and fits the budget, and the
submitter holds bidding authority. -/
theorem setup_phase_rejects_bids (team_id : Nat) (amount increment : Int)
    (userId : Nat) (userRole : String) (e : Engine) :
    (e.currentPhase = "setup" →
      (bidSubmit team_id amount increment userId userRole e).1 = e ∧
      (bidSubmit team_id amount increment userId userRole e).2.isSome = true) ∧
    (∀ team : Team, e.currentPhase = "bidding" →
      e.db.auction_state.mode = "auction" →
      e.db.auction_state.current_player_id ≠ none →
      team_id ≠ 0 → amount ≠ 0 →
      getTeam e.db team_id = some team →
      hasBiddingAuthority team userId userRole = true →
      e.db.auction_state.current_bid < amount →
      amount ≤ team.budget_remaining →
      bidSubmit team_id amount increment userId userRole e =
        ({ e with bidQueue := e.bidQueue ++
            [⟨team_id, amount,
              if increment = 0 then amount - e.db.auction_state.current_bid
              else increment, false⟩] }, none)) := by
  constructor
  · intro hsetup
    simp only [bidSubmit]
    repeat' split
    all_goals exact ⟨rfl, rfl⟩
  · intro team hbid hmode hplayer htid0 hamt0 hteam hauth hlt hbudget
    obtain ⟨p, hp⟩ := Option.ne_none_iff_exists'.1 hplayer
    simp only [bidSubmit, hp, hmode, hteam, hauth, hbid]
    rw [if_neg (by simp [htid0, hamt0])]
    simp [hlt.not_le, hbudget.not_lt]

/-- Witness for `setup_phase_rejects_bids`: a bid of 200 for team 1 by its
owner (user 7) is rejected during setup and accepted into the queue once the
phase is `bidding`. -/
theorem setup_phase_rejects_bids_witness :
    (bidSubmit 1 200 0 7 "user" wEngine).1 = wEngine ∧
    (bidSubmit 1 200 0 7 "user" wEngine).2.isSome = true ∧
    bidSubmit 1 200 0 7 "user" wBidEngine =
      ({ wBidEngine with bidQueue := wBidEngine.bidQueue ++
          [⟨1, 200,
            if (0 : Int) = 0 then 200 - wBidEngine.db.auction_state.current_bid
            else 0, false⟩] }, none) :=
  ⟨((setup_phase_rejects_bids 1 200 0 7 "user" wEngine).1 rfl).1,
   ((setup_phase_rejects_bids 1 200 0 7 "user" wEngine).1 rfl).2,
   (setup_phase_rejects_bids 1 200 0 7 "user" wBidEngine).2 wTeam1 rfl rfl
     (by decide) (by decide) (by decide) (by decide) (by decide) (by decide)
     (by decide)⟩

/-- C10: sold() and unsold() called while no player is on the block (or, for
sold, no current bidder is set) are rejected — yet the call still clears the
bid queue, cancels any pending phase timer and resets the phase to `idle`
before rejecting: the engine-local state is mutated on the error path. -/
theorem sold_unsold_mutate_on_error (e : Engine) :
    ((e.db.auction_state.current_player_id = none ∨
      e.db.auction_state.current_bidder_team_id = none) →
      soldRoute e =
        ({ e with bidQueue := [], currentPhase := "idle", phaseTimer := false },
         false)) ∧
    (e.db.auction_state.current_player_id = none →
      unsoldRoute e =
        ({ e with bidQueue := [], currentPhase := "idle", phaseTimer := false },
         false)) := by
  constructor
  · intro h
    rcases h with h | h
    · cases hb : e.db.auction_state.current_bidder_team_id <;>
        simp [soldRoute, h, hb]
    · cases hp : e.db.auction_state.current_player_id <;>
        simp [soldRoute, h, hp]
  · intro h
    simp [unsoldRoute, h]

/-- Witness for `sold_unsold_mutate_on_error`: with no player on the block
and a non-empty queue in the `bidding` phase, both calls reject yet reset the
queue, phase and timer. -/
theorem sold_unsold_mutate_on_error_witness :
    soldRoute wIdleEngine =
      ({ wIdleEngine with
          bidQueue := [], currentPhase := "idle", phaseTimer := false }, false) ∧
    unsoldRoute wIdleEngine =
      ({ wIdleEngine with
          bidQueue := [], currentPhase := "idle", phaseTimer := false }, false) :=
  ⟨(sold_unsold_mutate_on_error wIdleEngine).1 (Or.inl rfl),
   (sold_unsold_mutate_on_error wIdleEngine).2 rfl⟩



theorem corePlayer_any_iff (db : Db) (tid d : Nat) :
    ((db.team_roster.any fun row =>
        row.team_id == tid && row.acquisition_type == "core" &&
        db.players.any fun p => p.id == row.player_id && p.user_id == d) = true) ↔
      (∃ row ∈ db.team_roster, row.team_id = tid ∧
         row.acquisition_type = "core" ∧
         ∃ p ∈ db.players, p.id = row.player_id ∧ p.user_id = d) := by
  simp [List.any_eq_true, Bool.and_eq_true, and_assoc]



theorem autoBidEntry_some_iff (exclude : Nat) (db : Db) (tid : Nat)
    (s : AutoBidSetting) (pb : PendingBid) :
    autoBidEntry exclude db (tid, s) = some pb ↔
      (tid ≠ exclude ∧ s.active = true ∧
       ∃ team, getTeam db tid = some team ∧
         db.auction_state.current_bid + s.increment ≤ s.maxBid ∧
         db.auction_state.current_bid + s.increment ≤ team.budget_remaining ∧
         pb = ⟨tid, db.auction_state.current_bid + s.increment, s.increment, true⟩) := by
  have hac : ∀ b : Bool, ¬b = false → b = true := by
    intro b hb; cases hs : b
    · exact absurd hs hb
    · rfl
  simp only [autoBidEntry]
  split
  next hcase =>
    constructor
    · intro h; cases h
    · rintro ⟨h1, h2, -⟩
      rcases hcase with h | h
      · exact absurd h h1
      · rw [h2] at h; cases h
  next hcase =>
    push_neg at hcase
    obtain ⟨h1, h2⟩ := hcase
    split
    next hteamEq =>
      constructor
      · intro h; cases h
      · rintro ⟨-, -, team, hteam, -⟩
        rw [hteamEq] at hteam; cases hteam
    next team hteamEq =>
      split
      next hcond =>
        constructor
        · intro h
          injection h with h
          exact ⟨h1, hac s.active h2, team, hteamEq, hcond.1, hcond.2, h.symm⟩
        · rintro ⟨-, -, team', hteam', -, -, hpb⟩
          rw [hpb]
      next hcond =>
        constructor
        · intro h; cases h
        · rintro ⟨-, -, team', hteam', hc1, hc2, -⟩
          rw [hteamEq] at hteam'
          injection hteam' with hteam'
          subst hteam'
          exact absurd ⟨hc1, hc2⟩ hcond

/-- C4 counterexample: an applied admin manual bid does not trigger the
auto-bid evaluator.  Team 2's enabled instruction is eligible after team 1's
manual bid of 200 (200 + 50 is within ceiling 400 and budget 500000) — the
evaluator's own per-entry rule would produce the synthetic bid ⟨2, 250⟩ —
yet the handler leaves the queue empty: no synthetic bid is appended. -/
theorem manual_bid_skips_auto_bid_evaluator :
    (manualBidRoute 1 200
      { wEngine with autoBidSettings := [(2, ⟨400, 50, true⟩)] }).2 = true ∧
    autoBidEntry 1
      (manualBidRoute 1 200
        { wEngine with autoBidSettings := [(2, ⟨400, 50, true⟩)] }).1.db
      (2, ⟨400, 50, true⟩) = some ⟨2, 250, 50, true⟩ ∧
    (manualBidRoute 1 200
      { wEngine with autoBidSettings := [(2, ⟨400, 50, true⟩)] }).1.bidQueue = [] := by
  refine ⟨by decide, by decide, by decide⟩

/-- C4 amended: after every queue-drained bid — applied or not — the
evaluator scans every team's instruction except the team that just bid, in
map order, and appends for each scanned team with an enabled instruction
where `currentBid + increment` is within both ceiling and remaining budget a
synthetic bid of exactly `currentBid + increment` marked `isAutoBid = true`;
admin manual bids do not invoke the evaluator and leave the queue and the
instructions untouched. -/
theorem auto_bid_evaluator_after_drained_bids :
    (∀ (exclude : Nat) (db : Db) (settings : List (Nat × AutoBidSetting))
        (queue : List PendingBid),
      db.auction_state.mode = "auction" →
      db.auction_state.current_player_id ≠ none →
      checkAutoBids exclude db settings queue =
        queue ++ settings.filterMap (autoBidEntry exclude db)) ∧
    (∀ (exclude : Nat) (db : Db) (tid : Nat) (s : AutoBidSetting) (pb : PendingBid),
      autoBidEntry exclude db (tid, s) = some pb ↔
        (tid ≠ exclude ∧ s.active = true ∧
         ∃ team, getTeam db tid = some team ∧
           db.auction_state.current_bid + s.increment ≤ s.maxBid ∧
           db.auction_state.current_bid + s.increment ≤ team.budget_remaining ∧
           pb = ⟨tid, db.auction_state.current_bid + s.increment, s.increment, true⟩)) ∧
    (∀ (d : Nat) (e : Engine) (bid : PendingBid) (rest : List PendingBid),
      e.bidQueue = bid :: rest →
      (drainStep d e).1.bidQueue =
        checkAutoBids bid.teamId
          (executeBid bid (max e.now (e.lastBidTime + BID_INTERVAL_MS)) e.db).1
          e.autoBidSettings rest) ∧
    (∀ (tid : Nat) (amt : Int) (e : Engine),
      (manualBidRoute tid amt e).1.bidQueue = e.bidQueue ∧
      (manualBidRoute tid amt e).1.autoBidSettings = e.autoBidSettings) := by
  refine ⟨?_, ?_, ?_, ?_⟩
  · intro exclude db settings queue hmode hp
    exact checkAutoBids_eq exclude db hmode hp settings queue
  · intro exclude db tid s pb
    exact autoBidEntry_some_iff exclude db tid s pb
  · intro d e bid rest hbr
    exact (drainStep_fields hbr d).2.2.2
  · intro tid amt e
    rcases manualBid_spec tid amt e with heq | ⟨_, _, _, _, _, h6, h7⟩
    · rw [heq]; exact ⟨rfl, rfl⟩
    · exact ⟨h6, h7⟩

/-- Witness for `auto_bid_evaluator_after_drained_bids`: the evaluator on a
concrete state appends exactly team 2's synthetic bid of 150 = 100 + 50, a
concrete drain step invokes it excluding the bidder, and a concrete manual
bid leaves the queue untouched. -/
theorem auto_bid_evaluator_after_drained_bids_witness :
    checkAutoBids 1 wDb [(2, ⟨400, 50, true⟩)] [] =
      [] ++ [((2 : Nat), (⟨400, 50, true⟩ : AutoBidSetting))].filterMap
              (autoBidEntry 1 wDb) ∧
    (autoBidEntry 1 wDb (2, ⟨400, 50, true⟩) = some ⟨2, 150, 50, true⟩ ↔
      ((2 : Nat) ≠ 1 ∧ true = true ∧
       ∃ team, getTeam wDb 2 = some team ∧
         wDb.auction_state.current_bid + 50 ≤ 400 ∧
         wDb.auction_state.current_bid + 50 ≤ team.budget_remaining ∧
         (⟨2, 150, 50, true⟩ : PendingBid) =
           ⟨2, wDb.auction_state.current_bid + 50, 50, true⟩)) ∧
    (drainStep 0 { wEngine with bidQueue := [⟨1, 200, 100, false⟩] }).1.bidQueue =
      checkAutoBids 1
        (executeBid ⟨1, 200, 100, false⟩
          (max wEngine.now (wEngine.lastBidTime + BID_INTERVAL_MS)) wEngine.db).1
        wEngine.autoBidSettings [] ∧
    (manualBidRoute 1 200 wEngine).1.bidQueue = wEngine.bidQueue :=
  ⟨auto_bid_evaluator_after_drained_bids.1 1 wDb [(2, ⟨400, 50, true⟩)] []
     rfl (by decide),
   auto_bid_evaluator_after_drained_bids.2.1 1 wDb 2 ⟨400, 50, true⟩
     ⟨2, 150, 50, true⟩,
   auto_bid_evaluator_after_drained_bids.2.2.1 0
     { wEngine with bidQueue := [⟨1, 200, 100, false⟩] } ⟨1, 200, 100, false⟩ []
     rfl,
   (auto_bid_evaluator_after_drained_bids.2.2.2 1 200 wEngine).1⟩

/-- Witness for `sold_commits_acquisition`: selling player 5 to team 1 at
500000 debits team 1's budget by 500000, creates the roster row, flags the
matching log entry, and a second sold() is rejected. -/
theorem sold_commits_acquisition_witness :
    (soldRoute wSoldEngine).2 = true ∧
    getTeam (soldRoute wSoldEngine).1.db 1 =
      some { wTeam1 with budget_remaining :=
               wTeam1.budget_remaining - wSoldEngine.db.auction_state.current_bid } ∧
    (∃ r ∈ (soldRoute wSoldEngine).1.db.team_roster,
       r.team_id = 1 ∧ r.player_id = 5 ∧
       r.season = wSoldEngine.db.auction_state.season ∧
       r.price = wSoldEngine.db.auction_state.current_bid ∧
       r.acquisition_type = "auction") ∧
    (∃ l ∈ (soldRoute wSoldEngine).1.db.auction_log,
       l.player_id = 5 ∧ l.team_id = 1 ∧
       l.bid_amount = wSoldEngine.db.auction_state.current_bid ∧
       l.season = wSoldEngine.db.auction_state.season ∧ l.is_winning_bid = true) ∧
    (soldRoute (soldRoute wSoldEngine).1).2 = false :=
  have h := sold_commits_acquisition wSoldEngine 5 1 wTeam1 rfl rfl (by decide)
  ⟨h.1, h.2.1, h.2.2.2.1, h.2.2.2.2.1 (by decide),
   h.2.2.2.2.2.2.2.2.2.2⟩

/-- C8: bidding authority is a pure function of (team, user, role): an admin
always has authority; otherwise exactly the delegate when one is set, else
exactly the owner.  Delegation (owner- or admin-initiated) succeeds iff the
delegate is the team's captain or a core roster member, setting the team's
delegate; any other delegate is rejected with the database unchanged;
revocation clears the delegate, returning authority to the owner. -/
theorem bidding_authority_resolution :
    (∀ (team : Team) (u : Nat), hasBiddingAuthority team u "admin" = true) ∧
    (∀ (team : Team) (u d : Nat) (r : String), r ≠ "admin" →
      team.bidding_authority_user_id = some d →
      (hasBiddingAuthority team u r = true ↔ u = d)) ∧
    (∀ (team : Team) (u : Nat) (r : String), r ≠ "admin" →
      team.bidding_authority_user_id = none →
      (hasBiddingAuthority team u r = true ↔ team.owner_id = some u)) ∧
    (∀ (db : Db) (team : Team) (tid d uid : Nat) (r : String),
      tid ≠ 0 → getTeam db tid = some team →
      (r = "admin" ∨ team.owner_id = some uid) →
      db.users.contains d = true →
      (((delegateAuthorityRoute tid (some d) uid r db).2 = none) ↔
        (team.captain_id = some d ∨
         ∃ row ∈ db.team_roster, row.team_id = tid ∧
           row.acquisition_type = "core" ∧
           ∃ p ∈ db.players, p.id = row.player_id ∧ p.user_id = d)) ∧
      ((delegateAuthorityRoute tid (some d) uid r db).2 = none →
        getTeam (delegateAuthorityRoute tid (some d) uid r db).1 tid =
          some { team with bidding_authority_user_id := some d }) ∧
      ((delegateAuthorityRoute tid (some d) uid r db).2 ≠ none →
        (delegateAuthorityRoute tid (some d) uid r db).1 = db)) ∧
    (∀ (db : Db) (team : Team) (tid uid : Nat) (r : String),
      tid ≠ 0 → getTeam db tid = some team →
      (r = "admin" ∨ team.owner_id = some uid) →
      (delegateAuthorityRoute tid none uid r db).2 = none ∧
      getTeam (delegateAuthorityRoute tid none uid r db).1 tid =
        some { team with bidding_authority_user_id := none }) := by
  refine ⟨?_, ?_, ?_, ?_, ?_⟩
  · intro team u
    simp [hasBiddingAuthority]
  · intro team u d r hr hd
    simp only [hasBiddingAuthority, if_neg hr, hd, beq_iff_eq]
    exact eq_comm
  · intro team u r hr hd
    simp [hasBiddingAuthority, hr, hd]
  · intro db team tid d uid r htid hteam hperm husers
    have hroute : delegateAuthorityRoute tid (some d) uid r db =
        (if ¬(team.captain_id = some d ∨
              (db.team_roster.any fun row =>
                row.team_id == tid && row.acquisition_type == "core" &&
                db.players.any fun p => p.id == row.player_id && p.user_id == d) = true)
         then (db, some "Can only delegate to team captain or core players")
         else ({ db with teams := db.teams.map (fun t =>
                  if t.id == tid then { t with bidding_authority_user_id := some d }
                  else t) }, none)) := by
      simp only [delegateAuthorityRoute, if_neg htid, hteam,
        if_neg (not_not_intro hperm), if_neg (not_not_intro husers)]
    by_cases hc : team.captain_id = some d ∨
        (db.team_roster.any fun row =>
          row.team_id == tid && row.acquisition_type == "core" &&
          db.players.any fun p => p.id == row.player_id && p.user_id == d) = true
    · rw [hroute, if_neg (not_not_intro hc)]
      refine ⟨?_, ?_, ?_⟩
      · simp only [true_iff]
        rcases hc with hc | hc
        · exact Or.inl hc
        · exact Or.inr ((corePlayer_any_iff db tid d).1 hc)
      · intro _
        exact find?_update_list db.teams tid
          (fun t => { t with bidding_authority_user_id := some d })
          (fun t => rfl) team hteam
      · intro hne
        exact absurd rfl hne
    · rw [hroute, if_pos hc]
      refine ⟨?_, ?_, ?_⟩
      · constructor
        · intro h; cases h
        · intro h
          exfalso
          apply hc
          rcases h with h | h
          · exact Or.inl h
          · exact Or.inr ((corePlayer_any_iff db tid d).2 h)
      · intro h; cases h
      · intro _; rfl
  · intro db team tid uid r htid hteam hperm
    have hroute : delegateAuthorityRoute tid none uid r db =
        ({ db with teams := db.teams.map (fun t =>
            if t.id == tid then { t with bidding_authority_user_id := none }
            else t) }, none) := by
      simp only [delegateAuthorityRoute, if_neg htid, hteam,
        if_neg (not_not_intro hperm)]
    rw [hroute]
    exact ⟨rfl,
      find?_update_list db.teams tid
        (fun t => { t with bidding_authority_user_id := none })
        (fun t => rfl) team hteam⟩

/-- Witness for `bidding_authority_resolution`: on concrete data, an admin
always has authority; owner 7 delegates team 1 to captain 8 (accepted, and
authority then resolves to user 8 only); delegating to user 9 (neither
captain nor core) leaves the database unchanged; revocation clears the
delegate. -/
theorem bidding_authority_resolution_witness :
    hasBiddingAuthority wTeam1 99 "admin" = true ∧
    (delegateAuthorityRoute 1 (some 8) 7 "user" wDb).2 = none ∧
    getTeam (delegateAuthorityRoute 1 (some 8) 7 "user" wDb).1 1 =
      some { wTeam1 with bidding_authority_user_id := some 8 } ∧
    (hasBiddingAuthority { wTeam1 with bidding_authority_user_id := some 8 }
       10 "user" = true ↔ (10 : Nat) = 8) ∧
    (delegateAuthorityRoute 1 (some 9) 7 "user" wDb).1 = wDb ∧
    (delegateAuthorityRoute 1 none 7 "user" wDb).2 = none ∧
    getTeam (delegateAuthorityRoute 1 none 7 "user" wDb).1 1 =
      some { wTeam1 with bidding_authority_user_id := none } :=
  have h4 := bidding_authority_resolution.2.2.2.1 wDb wTeam1 1 8 7 "user"
    (by decide) (by decide) (Or.inr rfl) (by decide)
  have h4bad := bidding_authority_resolution.2.2.2.1 wDb wTeam1 1 9 7 "user"
    (by decide) (by decide) (Or.inr rfl) (by decide)
  have h5 := bidding_authority_resolution.2.2.2.2 wDb wTeam1 1 7 "user"
    (by decide) (by decide) (Or.inr rfl)
  ⟨bidding_authority_resolution.1 wTeam1 99,
   h4.1.mpr (Or.inl rfl),
   h4.2.1 (h4.1.mpr (Or.inl rfl)),
   bidding_authority_resolution.2.1
     { wTeam1 with bidding_authority_user_id := some 8 } 10 8 "user"
     (by decide) rfl,
   h4bad.2.2 (by decide),
   h5.1, h5.2⟩


end Wogolea
